import Mathlib

/-!
Shallow embedding of `scripts/calculate_mean_reqs_per_sec.py`.

Conventions used throughout:

* A `datetime` value is modelled as a rational number of seconds on an
  absolute time axis; `datetime.fromisoformat(event["time"].replace(...))`
  is modelled by the field `Event.time : Option ℚ`, where `none` means the
  key lookup or the ISO parse raises (KeyError / ValueError).
* Every other JSON field of a record is likewise an `Option`, `none` meaning
  the key is absent, so that indexing it (`event["target"]`) raises KeyError;
  `event.get("max_requests", 1)` is `Option.getD`.
* A Python function that can raise an uncaught exception is modelled with an
  `Option` result, `none` being the raise; `sys.exit code` is modelled with
  `Except.error code` in the reader and by `MainOutcome` for the whole run.
* The Python `dict` `scan_groups` is modelled as an insertion-ordered
  association list `List (String × ScanGroup)`; keys stay unique because an
  entry is appended only when lookup fails, exactly as in the script.
* `float` arithmetic is modelled exactly over `ℚ`.
-/

namespace NucleiStats

/-- One parsed JSON event record.  Every field is optional because a parsed
JSON object need not contain it; the script indexes fields without checks. -/
structure Event where
  time : Option ℚ
  event_type : Option String
  template_id : Option String
  target : Option String
  template_path : Option String
  max_requests : Option ℤ
  deriving DecidableEq

/-- The literal the script compares `event["event_type"]` against to detect a
scan start. -/
def scan_start_type : String := "scan_start"

/-- The literal the script compares `event["event_type"]` against to detect a
scan end. -/
def scan_end_type : String := "scan_end"

/-- `f"{event['template_id']}_{event['target']}"` (line 83): the grouping key,
`none` when either key lookup raises. -/
def scanKey (e : Event) : Option String :=
  match e.template_id, e.target with
  | some tid, some tgt => some (tid ++ "_" ++ tgt)
  | _, _ => none

/-- `min(timestamps)` over the nonempty list `a :: l`. -/
def listMin (a : ℚ) (l : List ℚ) : ℚ := l.foldl min a

/-- `max(timestamps)` over the nonempty list `a :: l`. -/
def listMax (a : ℚ) (l : List ℚ) : ℚ := l.foldl max a

/-- The timestamp-parsing loop of `calculate_mean_reqs_per_sec` (lines 39-45):
parses every event's `time` in order, raising (`none`) at the first record
whose `time` is absent or unparseable. -/
def parseTimes : List Event → Option (List ℚ)
  | [] => some []
  | e :: rest =>
    match e.time with
    | none => none
    | some t => (parseTimes rest).map (fun ts => t :: ts)

/-- `calculate_mean_reqs_per_sec` (lines 30-61): flat mean over ALL events.
Sums `event.get("max_requests", 1)`, returns `0.0` for fewer than two
timestamps, the raw total when the span is zero, and total/span otherwise.
`none` models the uncaught exception on a bad `time` field. -/
def calculate_mean_reqs_per_sec (events : List Event) : Option ℚ :=
  match events with
  | [] => some 0
  | _ :: _ =>
    match parseTimes events with
    | none => none
    | some timestamps =>
      let total_requests : ℤ := (events.map (fun e => e.max_requests.getD 1)).sum
      match timestamps with
      | [] => some 0
      | [_] => some 0
      | t :: ts =>
        let total_seconds := listMax t ts - listMin t ts
        if total_seconds = 0 then some ((total_requests : ℚ))
        else some ((total_requests : ℚ) / total_seconds)

/-- One aggregated scan group (the dict built at lines 85-92). -/
structure ScanGroup where
  template_id : String
  target : String
  template_path : String
  max_requests : ℤ
  start_time : Option ℚ
  end_time : Option ℚ
  deriving DecidableEq

/-- First-match lookup in the association list modelling the `scan_groups`
dict. -/
def lookupG (k : String) : List (String × ScanGroup) → Option ScanGroup
  | [] => none
  | (k0, g) :: rest => if k0 = k then some g else lookupG k rest

/-- Update the (unique) entry with key `k`, modelling
`scan_groups[key]["start_time"] = ...`. -/
def updateG (k : String) (f : ScanGroup → ScanGroup) :
    List (String × ScanGroup) → List (String × ScanGroup)
  | [] => []
  | (k0, g) :: rest => if k0 = k then (k0, f g) :: rest else (k0, g) :: updateG k f rest

/-- The fresh group record of lines 85-92 (both timestamps `None`). -/
def newGroup (tid tgt tp : String) (mr : ℤ) : ScanGroup :=
  ⟨tid, tgt, tp, mr, none, none⟩

/-- `scan_groups[key]["start_time"] = <parsed time>` (lines 95-97). -/
def setStart (t : ℚ) (g : ScanGroup) : ScanGroup := { g with start_time := some t }

/-- `scan_groups[key]["end_time"] = <parsed time>` (lines 99-101). -/
def setEnd (t : ℚ) (g : ScanGroup) : ScanGroup := { g with end_time := some t }

/-- One iteration of the grouping loop (lines 82-101): build the key, insert a
fresh group if the key is new, then overwrite `start_time` / `end_time`
according to `event_type`.  `none` models an uncaught KeyError / ValueError on
a missing field or unparseable `time`. -/
def processEvent (gs : List (String × ScanGroup)) (e : Event) :
    Option (List (String × ScanGroup)) :=
  match e.template_id, e.target with
  | some tid, some tgt =>
    let key := tid ++ "_" ++ tgt
    let init : Option (List (String × ScanGroup)) :=
      match lookupG key gs with
      | some _ => some gs
      | none =>
        match e.template_path, e.max_requests with
        | some tp, some mr => some (gs ++ [(key, newGroup tid tgt tp mr)])
        | _, _ => none
    match init with
    | none => none
    | some gs1 =>
      match e.event_type with
      | none => none
      | some et =>
        if et = scan_start_type then
          match e.time with
          | none => none
          | some t => some (updateG key (setStart t) gs1)
        else if et = scan_end_type then
          match e.time with
          | none => none
          | some t => some (updateG key (setEnd t) gs1)
        else some gs1
  | _, _ => none

/-- The grouping loop run from an arbitrary accumulator state. -/
def buildScanGroupsAux (gs : List (String × ScanGroup)) :
    List Event → Option (List (String × ScanGroup))
  | [] => some gs
  | e :: rest =>
    match processEvent gs e with
    | none => none
    | some gs1 => buildScanGroupsAux gs1 rest

/-- The whole grouping loop of `main` (lines 81-101), from the empty dict. -/
def buildScanGroups (events : List Event) : Option (List (String × ScanGroup)) :=
  buildScanGroupsAux [] events

/-- The completed-scan filter (lines 104-108): groups with both timestamps
set.  (A Python `datetime` is always truthy, so the script's truthiness test
is exactly `isSome` on both fields.) -/
def completedScans (gs : List (String × ScanGroup)) : List ScanGroup :=
  (gs.map Prod.snd).filter (fun g => g.start_time.isSome && g.end_time.isSome)

/-- `all_times.extend([scan["start_time"], scan["end_time"]])` for one group
(lines 119-120); on a completed group this is its two timestamps. -/
def scanTimes (g : ScanGroup) : List ℚ := g.start_time.toList ++ g.end_time.toList

/-- The flattened `all_times` list of lines 118-120. -/
def allTimes (cs : List ScanGroup) : List ℚ := cs.flatMap scanTimes

/-- The completed-scan statistics block (lines 114-130): `none` when there is
no completed scan (the script prints a message and computes nothing), else
the reported mean requests per second, with the span-zero fallback. -/
def completedMean (cs : List ScanGroup) : Option ℚ :=
  match cs with
  | [] => none
  | _ :: _ =>
    let total_requests : ℤ := (cs.map ScanGroup.max_requests).sum
    match allTimes cs with
    | [] => none
    | t :: ts =>
      let total_seconds := listMax t ts - listMin t ts
      if 0 < total_seconds then some ((total_requests : ℚ) / total_seconds)
      else some ((total_requests : ℚ))

/-- End-to-end: the mean requests per second that `main` reports for a given
event list (`none` when the run crashes or there is no completed scan). -/
def mainMean (events : List Event) : Option ℚ :=
  match buildScanGroups events with
  | none => none
  | some gs => completedMean (completedScans gs)

/-- One line of the input file after `line.strip()`: blank, JSON that fails to
parse, or a parsed record. -/
inductive Line
  | blank
  | malformed
  | record (e : Event)
  deriving DecidableEq

/-- The line loop of `parse_events_file` (lines 17-20): keep record lines in
order, abort with exit code 1 at the first malformed line. -/
def parseLines : List Line → Except Nat (List Event)
  | [] => Except.ok []
  | Line.blank :: rest => parseLines rest
  | Line.malformed :: _ => Except.error 1
  | Line.record e :: rest => (parseLines rest).map (fun es => e :: es)

/-- `parse_events_file` (lines 12-27): `none` input models a missing file
(FileNotFoundError, exit 1); otherwise parse the stripped lines. -/
def parse_events_file (file : Option (List Line)) : Except Nat (List Event) :=
  match file with
  | none => Except.error 1
  | some lines => parseLines lines

/-- How one whole run of `main` terminates. -/
inductive MainOutcome
  | exited (code : Nat)
  | crashed
  | finished
  deriving DecidableEq

/-- End-to-end control flow of `main` (lines 64-150): `sys.exit` from the
reader, an uncaught exception from the grouping loop (the statistics block
after a successful grouping cannot raise: completed groups carry parsed
timestamps and the divisions are guarded), or a normal return. -/
def runMain (file : Option (List Line)) : MainOutcome :=
  match parse_events_file file with
  | Except.error c => MainOutcome.exited c
  | Except.ok events =>
    match buildScanGroups events with
    | none => MainOutcome.crashed
    | some _ => MainOutcome.finished

/-- The operating-system exit status of a run: a normal return exits 0 and an
uncaught Python exception terminates the interpreter with status 1. -/
def exitStatus : MainOutcome → Nat
  | MainOutcome.exited c => c
  | MainOutcome.crashed => 1
  | MainOutcome.finished => 0

/-! ### Helper functions used to state the theorems -/

/-- The `start_time` currently recorded for key `k` (`none` when the key is
absent or its start is unset). -/
def startOf (k : String) (gs : List (String × ScanGroup)) : Option ℚ :=
  (lookupG k gs).bind ScanGroup.start_time

/-- The `end_time` currently recorded for key `k`. -/
def endOf (k : String) (gs : List (String × ScanGroup)) : Option ℚ :=
  (lookupG k gs).bind ScanGroup.end_time

/-- Event `e` is a `scan_start` event for key `k`. -/
def isStartB (k : String) (e : Event) : Bool :=
  decide (scanKey e = some k ∧ e.event_type = some scan_start_type)

/-- Event `e` is a `scan_end` event for key `k`. -/
def isEndB (k : String) (e : Event) : Bool :=
  decide (scanKey e = some k ∧ e.event_type = some scan_end_type)

/-- Overwrite semantics in a single left-to-right pass: the `time` of the last
event satisfying `p`, starting from `acc`. -/
def lastTimeFrom (p : Event → Bool) : Option ℚ → List Event → Option ℚ
  | acc, [] => acc
  | acc, e :: rest => lastTimeFrom p (if p e then e.time else acc) rest

/-- All fields the script indexes are present (with `time` parseable): a
sufficient condition for one record never to raise inside the loops. -/
def requiredFields (e : Event) : Prop :=
  e.time.isSome = true ∧ e.event_type.isSome = true ∧ e.template_id.isSome = true ∧
    e.target.isSome = true ∧ e.template_path.isSome = true ∧ e.max_requests.isSome = true

instance (e : Event) : Decidable (requiredFields e) := by
  unfold requiredFields
  infer_instance

/-- A line is harmless to the whole run: blank and malformed lines trivially
(they never reach the grouping loop), record lines when all required fields
are present. -/
def lineWF : Line → Prop
  | Line.record e => requiredFields e
  | Line.blank => True
  | Line.malformed => True

instance : (l : Line) → Decidable (lineWF l)
  | Line.record e => inferInstanceAs (Decidable (requiredFields e))
  | Line.blank => inferInstanceAs (Decidable True)
  | Line.malformed => inferInstanceAs (Decidable True)

/-! ### Concrete sample records used to instantiate the theorems -/

def sT : String := "http-probe"

def sH : String := "example.com"

def sP : String := "probes/http.yaml"

def sInfo : String := "info"

def sAB : String := "a_b"

def sA : String := "a"

def sBC : String := "b_c"

def sC : String := "c"

/-- A record that parsed as JSON but carries none of the required keys. -/
def emptyEvent : Event := ⟨none, none, none, none, none, none⟩

/-- `scan_start` at t = 0 s. -/
def evS0 : Event := ⟨some 0, some scan_start_type, some sT, some sH, some sP, some 50⟩

/-- A repeated `scan_start` for the same key at t = 5 s. -/
def evS5 : Event := ⟨some 5, some scan_start_type, some sT, some sH, some sP, some 50⟩

/-- `scan_end` for the same key at t = 10 s. -/
def evE10 : Event := ⟨some 10, some scan_end_type, some sT, some sH, some sP, some 50⟩

/-- `scan_end` for the same key at t = 0 s (zero-span runs). -/
def evE0 : Event := ⟨some 0, some scan_end_type, some sT, some sH, some sP, some 50⟩

/-- An event of a third `event_type` for the same key. -/
def evOther : Event := ⟨some 3, some sInfo, some sT, some sH, some sP, some 50⟩

/-- Key-collision pair: `template_id "a_b"`, `target "c"`. -/
def evX : Event := ⟨none, none, some sAB, some sC, none, none⟩

/-- Key-collision pair: `template_id "a"`, `target "b_c"`. -/
def evY : Event := ⟨none, none, some sA, some sBC, none, none⟩

/-! ### `min` / `max` over nonempty lists -/

theorem listMin_cons (a x : ℚ) (l : List ℚ) : listMin a (x :: l) = listMin (min a x) l := rfl

theorem listMax_cons (a x : ℚ) (l : List ℚ) : listMax a (x :: l) = listMax (max a x) l := rfl

theorem listMin_mem (a : ℚ) (l : List ℚ) : listMin a l ∈ a :: l := by
  induction l generalizing a with
  | nil => simp [listMin]
  | cons x xs ih =>
    rw [listMin_cons]
    rcases List.mem_cons.mp (ih (min a x)) with h1 | h1
    · rcases min_choice a x with hm | hm
      · rw [h1, hm]; exact List.mem_cons_self _ _
      · rw [h1, hm]; exact List.mem_cons_of_mem _ (List.mem_cons_self _ _)
    · exact List.mem_cons_of_mem _ (List.mem_cons_of_mem _ h1)

theorem listMin_le (a : ℚ) (l : List ℚ) : ∀ x ∈ a :: l, listMin a l ≤ x := by
  induction l generalizing a with
  | nil =>
    intro x hx
    have hxa : x = a := by simpa using hx
    simp [listMin, hxa]
  | cons y ys ih =>
    intro x hx
    rw [listMin_cons]
    have hhead : listMin (min a y) ys ≤ min a y :=
      ih (min a y) (min a y) (List.mem_cons_self _ _)
    rcases List.mem_cons.mp hx with h1 | h1
    · rw [h1]; exact le_trans hhead (min_le_left a y)
    · rcases List.mem_cons.mp h1 with h2 | h2
      · rw [h2]; exact le_trans hhead (min_le_right a y)
      · exact ih (min a y) x (List.mem_cons_of_mem _ h2)

theorem listMax_mem (a : ℚ) (l : List ℚ) : listMax a l ∈ a :: l := by
  induction l generalizing a with
  | nil => simp [listMax]
  | cons x xs ih =>
    rw [listMax_cons]
    rcases List.mem_cons.mp (ih (max a x)) with h1 | h1
    · rcases max_choice a x with hm | hm
      · rw [h1, hm]; exact List.mem_cons_self _ _
      · rw [h1, hm]; exact List.mem_cons_of_mem _ (List.mem_cons_self _ _)
    · exact List.mem_cons_of_mem _ (List.mem_cons_of_mem _ h1)

theorem le_listMax (a : ℚ) (l : List ℚ) : ∀ x ∈ a :: l, x ≤ listMax a l := by
  induction l generalizing a with
  | nil =>
    intro x hx
    have hxa : x = a := by simpa using hx
    simp [listMax, hxa]
  | cons y ys ih =>
    intro x hx
    rw [listMax_cons]
    have hhead : max a y ≤ listMax (max a y) ys :=
      ih (max a y) (max a y) (List.mem_cons_self _ _)
    rcases List.mem_cons.mp hx with h1 | h1
    · rw [h1]; exact le_trans (le_max_left a y) hhead
    · rcases List.mem_cons.mp h1 with h2 | h2
      · rw [h2]; exact le_trans (le_max_right a y) hhead
      · exact ih (max a y) x (List.mem_cons_of_mem _ h2)

/-! ### Lookup / update lemmas for the association list -/

theorem lookupG_append_of_none {k : String} {gs : List (String × ScanGroup)}
    (h : lookupG k gs = none) (p : String × ScanGroup) :
    lookupG k (gs ++ [p]) = if p.1 = k then some p.2 else none := by
  induction gs with
  | nil => obtain ⟨k0, g⟩ := p; simp [lookupG]
  | cons q rest ih =>
    obtain ⟨k0, g⟩ := q
    simp only [lookupG, List.cons_append] at h ⊢
    by_cases hk : k0 = k
    · simp [hk] at h
    · simpa [hk] using ih (by simpa [hk] using h)

theorem lookupG_append_of_some {k : String} {gs : List (String × ScanGroup)}
    {g0 : ScanGroup} (h : lookupG k gs = some g0) (l2 : List (String × ScanGroup)) :
    lookupG k (gs ++ l2) = some g0 := by
  induction gs with
  | nil => simp [lookupG] at h
  | cons q rest ih =>
    obtain ⟨k0, g⟩ := q
    simp only [lookupG, List.cons_append] at h ⊢
    by_cases hk : k0 = k
    · simpa [hk] using h
    · simpa [hk] using ih (by simpa [hk] using h)

theorem lookupG_updateG_self (k : String) (f : ScanGroup → ScanGroup)
    (gs : List (String × ScanGroup)) :
    lookupG k (updateG k f gs) = (lookupG k gs).map f := by
  induction gs with
  | nil => simp [lookupG, updateG]
  | cons q rest ih =>
    obtain ⟨k0, g⟩ := q
    by_cases hk : k0 = k
    · simp [lookupG, updateG, hk]
    · simpa [lookupG, updateG, hk] using ih

theorem lookupG_updateG_ne {k1 k : String} (h : k1 ≠ k) (f : ScanGroup → ScanGroup)
    (gs : List (String × ScanGroup)) :
    lookupG k1 (updateG k f gs) = lookupG k1 gs := by
  induction gs with
  | nil => simp [lookupG, updateG]
  | cons q rest ih =>
    obtain ⟨k0, g⟩ := q
    simp only [updateG]
    by_cases hk : k0 = k
    · have hne : k0 ≠ k1 := by rw [hk]; exact fun hh => h hh.symm
      rw [if_pos hk]
      simp [lookupG, hne]
    · rw [if_neg hk]
      by_cases hk1 : k0 = k1
      · simp [lookupG, hk1]
      · simp [lookupG, hk1, ih]

theorem lookupG_mem {k : String} {gs : List (String × ScanGroup)} {g : ScanGroup}
    (h : lookupG k gs = some g) : (k, g) ∈ gs := by
  induction gs with
  | nil => simp [lookupG] at h
  | cons q rest ih =>
    obtain ⟨k0, g0⟩ := q
    simp only [lookupG] at h
    by_cases hk : k0 = k
    · rw [if_pos hk] at h
      have hg : g0 = g := Option.some.inj h
      rw [← hk, ← hg]
      exact List.mem_cons_self _ _
    · rw [if_neg hk] at h
      exact List.mem_cons_of_mem _ (ih h)

theorem lookupG_append_ne {k key : String} (h : key ≠ k) (g : ScanGroup)
    (gs : List (String × ScanGroup)) :
    lookupG k (gs ++ [(key, g)]) = lookupG k gs := by
  induction gs with
  | nil => simp [lookupG, h]
  | cons q rest ih =>
    obtain ⟨k0, g0⟩ := q
    by_cases hk : k0 = k
    · simp [lookupG, hk]
    · simp [lookupG, hk, ih]

/-! ### Anatomy of one successful grouping-loop iteration -/

theorem processEvent_cases {gs gs2 : List (String × ScanGroup)} {e : Event}
    (h : processEvent gs e = some gs2) :
    ∃ tid tgt gs1 et,
      e.template_id = some tid ∧ e.target = some tgt ∧ e.event_type = some et ∧
      ((lookupG (tid ++ "_" ++ tgt) gs).isSome = true ∧ gs1 = gs ∨
        lookupG (tid ++ "_" ++ tgt) gs = none ∧
          ∃ tp mr, e.template_path = some tp ∧ e.max_requests = some mr ∧
            gs1 = gs ++ [(tid ++ "_" ++ tgt, newGroup tid tgt tp mr)]) ∧
      (et = scan_start_type ∧
          (∃ t, e.time = some t ∧ gs2 = updateG (tid ++ "_" ++ tgt) (setStart t) gs1) ∨
        et ≠ scan_start_type ∧ et = scan_end_type ∧
          (∃ t, e.time = some t ∧ gs2 = updateG (tid ++ "_" ++ tgt) (setEnd t) gs1) ∨
        et ≠ scan_start_type ∧ et ≠ scan_end_type ∧ gs2 = gs1) := by
  obtain ⟨tm, ety, tid0, tgt0, tp0, mr0⟩ := e
  cases tid0 with
  | none => simp [processEvent] at h
  | some tid =>
  cases tgt0 with
  | none => simp [processEvent] at h
  | some tgt =>
  refine ⟨tid, tgt, ?_⟩
  simp only [processEvent] at h
  cases hlook : lookupG (tid ++ "_" ++ tgt) gs with
  | some g0 =>
    rw [hlook] at h
    cases ety with
    | none => simp at h
    | some et =>
      dsimp only at h
      refine ⟨gs, et, rfl, rfl, rfl, Or.inl ⟨by simp, rfl⟩, ?_⟩
      by_cases hst : et = scan_start_type
      · rw [if_pos hst] at h
        cases tm with
        | none => simp at h
        | some t =>
          exact Or.inl ⟨hst, t, rfl, (Option.some.inj h).symm⟩
      · rw [if_neg hst] at h
        by_cases hen : et = scan_end_type
        · rw [if_pos hen] at h
          cases tm with
          | none => simp at h
          | some t =>
            exact Or.inr (Or.inl ⟨hst, hen, t, rfl, (Option.some.inj h).symm⟩)
        · rw [if_neg hen] at h
          exact Or.inr (Or.inr ⟨hst, hen, (Option.some.inj h).symm⟩)
  | none =>
    rw [hlook] at h
    cases tp0 with
    | none => simp at h
    | some tp =>
    cases mr0 with
    | none => simp at h
    | some mr =>
    cases ety with
    | none => simp at h
    | some et =>
      dsimp only at h
      refine ⟨gs ++ [(tid ++ "_" ++ tgt, newGroup tid tgt tp mr)], et, rfl, rfl, rfl,
        Or.inr ⟨rfl, tp, mr, rfl, rfl, rfl⟩, ?_⟩
      by_cases hst : et = scan_start_type
      · rw [if_pos hst] at h
        cases tm with
        | none => simp at h
        | some t =>
          exact Or.inl ⟨hst, t, rfl, (Option.some.inj h).symm⟩
      · rw [if_neg hst] at h
        by_cases hen : et = scan_end_type
        · rw [if_pos hen] at h
          cases tm with
          | none => simp at h
          | some t =>
            exact Or.inr (Or.inl ⟨hst, hen, t, rfl, (Option.some.inj h).symm⟩)
        · rw [if_neg hen] at h
          exact Or.inr (Or.inr ⟨hst, hen, (Option.some.inj h).symm⟩)

theorem processEvent_key_present {gs gs1 : List (String × ScanGroup)} {key : String}
    (hinit : (lookupG key gs).isSome = true ∧ gs1 = gs ∨
      lookupG key gs = none ∧ ∃ g, gs1 = gs ++ [(key, g)]) :
    ∃ g1, lookupG key gs1 = some g1 := by
  rcases hinit with ⟨hsome, rfl⟩ | ⟨hnone, g, rfl⟩
  · exact Option.isSome_iff_exists.mp hsome
  · rw [lookupG_append_of_none hnone]
    simp

theorem startOf_step {gs gs2 : List (String × ScanGroup)} {e : Event}
    (h : processEvent gs e = some gs2) (k : String) :
    startOf k gs2 = if isStartB k e then e.time else startOf k gs := by
  obtain ⟨tid, tgt, gs1, et, htid, htgt, hety, hinit, hact⟩ := processEvent_cases h
  have hkey : scanKey e = some (tid ++ "_" ++ tgt) := by simp [scanKey, htid, htgt]
  have hmem : ∃ g1, lookupG (tid ++ "_" ++ tgt) gs1 = some g1 := by
    rcases hinit with ⟨hsome, h1⟩ | ⟨hnone, tp, mr, htp, hmr, h1⟩
    · exact processEvent_key_present (Or.inl ⟨hsome, h1⟩)
    · exact processEvent_key_present (Or.inr ⟨hnone, newGroup tid tgt tp mr, h1⟩)
  have hinit1 : ∀ k1, lookupG k1 gs1 = lookupG k1 gs ∨
      (k1 = tid ++ "_" ++ tgt ∧ lookupG k1 gs = none ∧
        ∃ tp mr, lookupG k1 gs1 = some (newGroup tid tgt tp mr)) := by
    intro k1
    rcases hinit with ⟨hsome, rfl⟩ | ⟨hnone, tp, mr, htp, hmr, rfl⟩
    · exact Or.inl rfl
    · by_cases hk1 : (tid ++ "_" ++ tgt) = k1
      · refine Or.inr ⟨hk1.symm, hk1 ▸ hnone, tp, mr, ?_⟩
        rw [← hk1, lookupG_append_of_none hnone]
        simp
      · exact Or.inl (lookupG_append_ne hk1 _ _)
  have hstart1 : ∀ k1, startOf k1 gs1 = startOf k1 gs := by
    intro k1
    rcases hinit1 k1 with h1 | ⟨hk1, hnone, tp, mr, hsome⟩
    · rw [startOf, startOf, h1]
    · rw [startOf, startOf, hsome, hnone]
      simp [newGroup]
  rcases hact with ⟨hst, t, htime, rfl⟩ | ⟨hnst, hen, t, htime, rfl⟩ | ⟨hnst, hnen, rfl⟩
  · by_cases hk : (tid ++ "_" ++ tgt) = k
    · obtain ⟨g1, hg1⟩ := hmem
      have hb : isStartB k e = true := by
        simp [isStartB, hkey, hk, hety, hst]
      rw [hb]
      simp only [if_true]
      rw [startOf, ← hk, lookupG_updateG_self, hg1, htime]
      simp [setStart]
    · have hb : isStartB k e = false := by
        simp only [isStartB, decide_eq_false_iff_not]
        intro hcon
        exact hk (Option.some.inj (hkey.symm.trans hcon.1))
      rw [hb]
      simp only [Bool.false_eq_true, if_false]
      rw [startOf, lookupG_updateG_ne (fun hh => hk hh.symm), ← startOf, hstart1]
  · have hb : isStartB k e = false := by
      simp only [isStartB, decide_eq_false_iff_not]
      intro hcon
      exact hnst (Option.some.inj (hety.symm.trans hcon.2))
    rw [hb]
    simp only [Bool.false_eq_true, if_false]
    by_cases hk : (tid ++ "_" ++ tgt) = k
    · obtain ⟨g1, hg1⟩ := hmem
      rw [startOf, ← hk, lookupG_updateG_self, hg1, ← hstart1 (tid ++ "_" ++ tgt), startOf, hg1]
      simp [setEnd]
    · rw [startOf, lookupG_updateG_ne (fun hh => hk hh.symm), ← startOf, hstart1]
  · have hb : isStartB k e = false := by
      simp only [isStartB, decide_eq_false_iff_not]
      intro hcon
      exact hnst (Option.some.inj (hety.symm.trans hcon.2))
    rw [hb]
    simp only [Bool.false_eq_true, if_false]
    exact hstart1 k

theorem endOf_step {gs gs2 : List (String × ScanGroup)} {e : Event}
    (h : processEvent gs e = some gs2) (k : String) :
    endOf k gs2 = if isEndB k e then e.time else endOf k gs := by
  obtain ⟨tid, tgt, gs1, et, htid, htgt, hety, hinit, hact⟩ := processEvent_cases h
  have hkey : scanKey e = some (tid ++ "_" ++ tgt) := by simp [scanKey, htid, htgt]
  have hmem : ∃ g1, lookupG (tid ++ "_" ++ tgt) gs1 = some g1 := by
    rcases hinit with ⟨hsome, h1⟩ | ⟨hnone, tp, mr, htp, hmr, h1⟩
    · exact processEvent_key_present (Or.inl ⟨hsome, h1⟩)
    · exact processEvent_key_present (Or.inr ⟨hnone, newGroup tid tgt tp mr, h1⟩)
  have hinit1 : ∀ k1, lookupG k1 gs1 = lookupG k1 gs ∨
      (k1 = tid ++ "_" ++ tgt ∧ lookupG k1 gs = none ∧
        ∃ tp mr, lookupG k1 gs1 = some (newGroup tid tgt tp mr)) := by
    intro k1
    rcases hinit with ⟨hsome, rfl⟩ | ⟨hnone, tp, mr, htp, hmr, rfl⟩
    · exact Or.inl rfl
    · by_cases hk1 : (tid ++ "_" ++ tgt) = k1
      · refine Or.inr ⟨hk1.symm, hk1 ▸ hnone, tp, mr, ?_⟩
        rw [← hk1, lookupG_append_of_none hnone]
        simp
      · exact Or.inl (lookupG_append_ne hk1 _ _)
  have hend1 : ∀ k1, endOf k1 gs1 = endOf k1 gs := by
    intro k1
    rcases hinit1 k1 with h1 | ⟨hk1, hnone, tp, mr, hsome⟩
    · rw [endOf, endOf, h1]
    · rw [endOf, endOf, hsome, hnone]
      simp [newGroup]
  rcases hact with ⟨hst, t, htime, rfl⟩ | ⟨hnst, hen, t, htime, rfl⟩ | ⟨hnst, hnen, rfl⟩
  · have hb : isEndB k e = false := by
      simp only [isEndB, decide_eq_false_iff_not]
      intro hcon
      have het : et = scan_end_type := Option.some.inj (hety.symm.trans hcon.2)
      rw [hst] at het
      exact absurd het (by decide)
    rw [hb]
    simp only [Bool.false_eq_true, if_false]
    by_cases hk : (tid ++ "_" ++ tgt) = k
    · obtain ⟨g1, hg1⟩ := hmem
      rw [endOf, ← hk, lookupG_updateG_self, hg1, ← hend1 (tid ++ "_" ++ tgt), endOf, hg1]
      simp [setStart]
    · rw [endOf, lookupG_updateG_ne (fun hh => hk hh.symm), ← endOf, hend1]
  · by_cases hk : (tid ++ "_" ++ tgt) = k
    · obtain ⟨g1, hg1⟩ := hmem
      have hb : isEndB k e = true := by
        simp [isEndB, hkey, hk, hety, hen]
      rw [hb]
      simp only [if_true]
      rw [endOf, ← hk, lookupG_updateG_self, hg1, htime]
      simp [setEnd]
    · have hb : isEndB k e = false := by
        simp only [isEndB, decide_eq_false_iff_not]
        intro hcon
        exact hk (Option.some.inj (hkey.symm.trans hcon.1))
      rw [hb]
      simp only [Bool.false_eq_true, if_false]
      rw [endOf, lookupG_updateG_ne (fun hh => hk hh.symm), ← endOf, hend1]
  · have hb : isEndB k e = false := by
      simp only [isEndB, decide_eq_false_iff_not]
      intro hcon
      exact hnen (Option.some.inj (hety.symm.trans hcon.2))
    rw [hb]
    simp only [Bool.false_eq_true, if_false]
    exact hend1 k

theorem lookupG_isSome_step {gs gs2 : List (String × ScanGroup)} {e : Event}
    (h : processEvent gs e = some gs2) (k : String) :
    (lookupG k gs2).isSome = ((lookupG k gs).isSome || decide (scanKey e = some k)) := by
  obtain ⟨tid, tgt, gs1, et, htid, htgt, hety, hinit, hact⟩ := processEvent_cases h
  have hkey : scanKey e = some (tid ++ "_" ++ tgt) := by simp [scanKey, htid, htgt]
  have hmem : ∃ g1, lookupG (tid ++ "_" ++ tgt) gs1 = some g1 := by
    rcases hinit with ⟨hsome, h1⟩ | ⟨hnone, tp, mr, htp, hmr, h1⟩
    · exact processEvent_key_present (Or.inl ⟨hsome, h1⟩)
    · exact processEvent_key_present (Or.inr ⟨hnone, newGroup tid tgt tp mr, h1⟩)
  have hgs1 : ∀ k1, (lookupG k1 gs1).isSome =
      ((lookupG k1 gs).isSome || decide (k1 = tid ++ "_" ++ tgt)) := by
    intro k1
    rcases hinit with ⟨hsome, rfl⟩ | ⟨hnone, tp, mr, htp, hmr, rfl⟩
    · by_cases hk1 : k1 = tid ++ "_" ++ tgt
      · rw [hk1]
        simp [hsome]
      · simp [hk1]
    · by_cases hk1 : (tid ++ "_" ++ tgt) = k1
      · rw [← hk1, lookupG_append_of_none hnone]
        simp [← hk1, hnone]
      · rw [lookupG_append_ne hk1]
        have hne : ¬(k1 = tid ++ "_" ++ tgt) := fun hh => hk1 hh.symm
        simp [hne]
  have hsame : ∀ k1, (lookupG k1 gs2).isSome = (lookupG k1 gs1).isSome := by
    intro k1
    rcases hact with ⟨hst, t, htime, rfl⟩ | ⟨hnst, hen, t, htime, rfl⟩ | ⟨hnst, hnen, rfl⟩
    · by_cases hk1 : (tid ++ "_" ++ tgt) = k1
      · rw [← hk1, lookupG_updateG_self]
        simp
      · rw [lookupG_updateG_ne (fun hh => hk1 hh.symm)]
    · by_cases hk1 : (tid ++ "_" ++ tgt) = k1
      · rw [← hk1, lookupG_updateG_self]
        simp
      · rw [lookupG_updateG_ne (fun hh => hk1 hh.symm)]
    · rfl
  rw [hsame, hgs1]
  have : (decide (scanKey e = some k)) = (decide (k = tid ++ "_" ++ tgt)) := by
    rw [hkey]
    by_cases hk : k = tid ++ "_" ++ tgt
    · simp [hk]
    · have hne : ¬(tid ++ "_" ++ tgt = k) := fun hh => hk hh.symm
      simp [hk, hne]
  rw [this]

theorem processEvent_time_isSome {gs gs2 : List (String × ScanGroup)} {e : Event}
    (h : processEvent gs e = some gs2)
    (he : e.event_type = some scan_start_type ∨ e.event_type = some scan_end_type) :
    e.time.isSome = true := by
  obtain ⟨tid, tgt, gs1, et, htid, htgt, hety, hinit, hact⟩ := processEvent_cases h
  rcases hact with ⟨hst, t, htime, rfl⟩ | ⟨hnst, hen, t, htime, rfl⟩ | ⟨hnst, hnen, rfl⟩
  · simp [htime]
  · simp [htime]
  · rcases he with he | he
    · exact absurd (Option.some.inj (hety.symm.trans he)) hnst
    · exact absurd (Option.some.inj (hety.symm.trans he)) hnen

/-! ### Invariants of the whole grouping pass -/

theorem buildAux_startOf : ∀ (events : List Event) (gs0 gs : List (String × ScanGroup)),
    buildScanGroupsAux gs0 events = some gs → ∀ k,
    startOf k gs = lastTimeFrom (isStartB k) (startOf k gs0) events := by
  intro events
  induction events with
  | nil =>
    intro gs0 gs h k
    have h1 : gs0 = gs := Option.some.inj h
    rw [← h1]
    rfl
  | cons e rest ih =>
    intro gs0 gs h k
    cases hpe : processEvent gs0 e with
    | none => simp [buildScanGroupsAux, hpe] at h
    | some gs1 =>
      have h2 : buildScanGroupsAux gs1 rest = some gs := by
        simpa [buildScanGroupsAux, hpe] using h
      rw [lastTimeFrom, ih gs1 gs h2 k, startOf_step hpe k]

theorem buildAux_endOf : ∀ (events : List Event) (gs0 gs : List (String × ScanGroup)),
    buildScanGroupsAux gs0 events = some gs → ∀ k,
    endOf k gs = lastTimeFrom (isEndB k) (endOf k gs0) events := by
  intro events
  induction events with
  | nil =>
    intro gs0 gs h k
    have h1 : gs0 = gs := Option.some.inj h
    rw [← h1]
    rfl
  | cons e rest ih =>
    intro gs0 gs h k
    cases hpe : processEvent gs0 e with
    | none => simp [buildScanGroupsAux, hpe] at h
    | some gs1 =>
      have h2 : buildScanGroupsAux gs1 rest = some gs := by
        simpa [buildScanGroupsAux, hpe] using h
      rw [lastTimeFrom, ih gs1 gs h2 k, endOf_step hpe k]

theorem buildAux_lookup : ∀ (events : List Event) (gs0 gs : List (String × ScanGroup)),
    buildScanGroupsAux gs0 events = some gs → ∀ k,
    ((lookupG k gs).isSome = true ↔
      (lookupG k gs0).isSome = true ∨ ∃ e ∈ events, scanKey e = some k) := by
  intro events
  induction events with
  | nil =>
    intro gs0 gs h k
    have h1 : gs0 = gs := Option.some.inj h
    rw [← h1]
    simp
  | cons e rest ih =>
    intro gs0 gs h k
    cases hpe : processEvent gs0 e with
    | none => simp [buildScanGroupsAux, hpe] at h
    | some gs1 =>
      have h2 : buildScanGroupsAux gs1 rest = some gs := by
        simpa [buildScanGroupsAux, hpe] using h
      rw [ih gs1 gs h2 k, lookupG_isSome_step hpe k]
      constructor
      · intro h3
        rcases h3 with h3 | ⟨e1, he1, hk1⟩
        · rcases (Bool.or_eq_true _ _).mp h3 with h4 | h4
          · exact Or.inl h4
          · exact Or.inr ⟨e, List.mem_cons_self _ _, of_decide_eq_true h4⟩
        · exact Or.inr ⟨e1, List.mem_cons_of_mem _ he1, hk1⟩
      · intro h3
        rcases h3 with h3 | ⟨e1, he1, hk1⟩
        · exact Or.inl ((Bool.or_eq_true _ _).mpr (Or.inl h3))
        · rcases List.mem_cons.mp he1 with h4 | h4
          · exact Or.inl ((Bool.or_eq_true _ _).mpr (Or.inr (decide_eq_true (h4 ▸ hk1))))
          · exact Or.inr ⟨e1, h4, hk1⟩

theorem buildAux_time_isSome : ∀ (events : List Event) (gs0 gs : List (String × ScanGroup)),
    buildScanGroupsAux gs0 events = some gs → ∀ e ∈ events,
    (e.event_type = some scan_start_type ∨ e.event_type = some scan_end_type) →
    e.time.isSome = true := by
  intro events
  induction events with
  | nil =>
    intro gs0 gs h e he
    exact absurd he (List.not_mem_nil e)
  | cons e0 rest ih =>
    intro gs0 gs h e he hty
    cases hpe : processEvent gs0 e0 with
    | none => simp [buildScanGroupsAux, hpe] at h
    | some gs1 =>
      have h2 : buildScanGroupsAux gs1 rest = some gs := by
        simpa [buildScanGroupsAux, hpe] using h
      rcases List.mem_cons.mp he with h4 | h4
      · exact processEvent_time_isSome (h4 ▸ hpe) (h4 ▸ hty)
      · exact ih gs1 gs h2 e h4 hty

/-- `lastTimeFrom` is the time of the last matching event (or the seed when
no event matches). -/
theorem lastTimeFrom_eq (p : Event → Bool) : ∀ (l : List Event) (acc : Option ℚ),
    lastTimeFrom p acc l =
      match (l.filter p).getLast? with
      | some e => e.time
      | none => acc := by
  intro l
  induction l with
  | nil => intro acc; rfl
  | cons e rest ih =>
    intro acc
    rw [lastTimeFrom, ih]
    rw [List.filter_cons]
    by_cases hp : p e
    · rw [if_pos hp, if_pos hp]
      cases hl : (rest.filter p).getLast? with
      | some x =>
        rw [List.getLast?_cons, hl]
        rfl
      | none =>
        rw [List.getLast?_cons, hl]
        rfl
    · rw [if_neg hp, if_neg hp]

/-! ### Claims -/

/-- C2, counterexample: the underscore join is not injective on
(template_id, target): the events with `template_id "a_b"`, `target "c"` and
`template_id "a"`, `target "b_c"` receive the same grouping key although
their `template_id` fields differ, so "same key iff same pair" fails. -/
theorem C2_counterexample :
    scanKey evX = scanKey evY ∧ evX.template_id ≠ evY.template_id := by
  constructor
  · rfl
  · decide

/-- C2 (amended): the grouping key is deterministic — two events with equal
`template_id` and equal `target` always receive the same key, whatever their
other fields and wherever they occur — but it is NOT injective: distinct
(template_id, target) pairs can collide when the `_` separator aligns, as the
counterexample shows. -/
theorem C2_key_deterministic (e1 e2 : Event)
    (h1 : e1.template_id = e2.template_id) (h2 : e1.target = e2.target) :
    scanKey e1 = scanKey e2 := by
  unfold scanKey
  rw [h1, h2]

/-- C2 witness: two events sharing (template_id, target) but differing in all
other fields get the same key. -/
theorem C2_key_deterministic_witness : scanKey evS0 = scanKey evE10 :=
  C2_key_deterministic evS0 evE10 rfl rfl

/-- C8, counterexample: a single-event list whose `time` field is absent (or
unparseable) makes `calculate_mean_reqs_per_sec` raise at line 41 instead of
returning 0.0, so "returns 0.0 regardless of field values" fails. -/
theorem C8_counterexample :
    [emptyEvent].length ≤ 1 ∧ calculate_mean_reqs_per_sec [emptyEvent] = none := by
  constructor
  · decide
  · rfl

/-- C8 (amended): for zero events, and for one event whose timestamp is
present and parseable, the flat mean requests/second is 0.0 regardless of the
remaining field values. -/
theorem C8_short_input_zero (events : List Event) (hlen : events.length ≤ 1)
    (ht : ∀ e ∈ events, e.time.isSome = true) :
    calculate_mean_reqs_per_sec events = some 0 := by
  cases events with
  | nil => rfl
  | cons e rest =>
    cases rest with
    | cons e2 rest2 => simp at hlen
    | nil =>
      obtain ⟨t, htt⟩ := Option.isSome_iff_exists.mp (ht e (List.mem_cons_self _ _))
      simp [calculate_mean_reqs_per_sec, parseTimes, htt]

/-- C8 witness: a one-event list with a parseable time gives 0.0. -/
theorem C8_short_input_zero_witness :
    calculate_mean_reqs_per_sec [evOther] = some 0 :=
  C8_short_input_zero [evOther] (by decide) (by decide)

/-- C5, counterexample: after two `scan_start` events for one key (t = 0 s
then t = 5 s), the group's `start_time` is the LAST seen one (5 s), not the
first-seen one (0 s), so "set from the first-seen scan_start" fails. -/
theorem C5_counterexample :
    ∃ gs, buildScanGroups [evS0, evS5] = some gs ∧
      startOf (sT ++ "_" ++ sH) gs = some 5 ∧ evS0.time = some 0 ∧
      startOf (sT ++ "_" ++ sH) gs ≠ evS0.time := by
  refine ⟨_, rfl, ?_, rfl, ?_⟩
  · decide
  · decide

/-- C5 (amended): a group's `start_time` is the parsed timestamp of the
last-seen `scan_start` event of its key (and `none` if there was none), and
its `end_time` likewise comes from the last-seen `scan_end` event —
overwrite-on-repeat, not first-seen. -/
theorem C5_last_seen (events : List Event) (gs : List (String × ScanGroup))
    (k : String) (g : ScanGroup)
    (hb : buildScanGroups events = some gs) (hg : lookupG k gs = some g) :
    g.start_time = lastTimeFrom (isStartB k) none events ∧
      g.end_time = lastTimeFrom (isEndB k) none events := by
  have h1 := buildAux_startOf events [] gs hb k
  have h2 := buildAux_endOf events [] gs hb k
  rw [startOf, hg, Option.some_bind] at h1
  rw [endOf, hg, Option.some_bind] at h2
  exact ⟨h1, h2⟩

/-- C5 witness: on the run `scan_start`(0 s), `scan_start`(5 s),
`scan_end`(10 s), the stored timestamps are 5 s and 10 s. -/
theorem C5_last_seen_witness :
    (⟨sT, sH, sP, 50, some 5, some 10⟩ : ScanGroup).start_time =
        lastTimeFrom (isStartB (sT ++ "_" ++ sH)) none [evS0, evS5, evE10] ∧
      (⟨sT, sH, sP, 50, some 5, some 10⟩ : ScanGroup).end_time =
        lastTimeFrom (isEndB (sT ++ "_" ++ sH)) none [evS0, evS5, evE10] :=
  C5_last_seen [evS0, evS5, evE10] _ (sT ++ "_" ++ sH) _ rfl rfl

theorem parseTimes_length : ∀ {l : List Event} {ts : List ℚ},
    parseTimes l = some ts → ts.length = l.length := by
  intro l
  induction l with
  | nil =>
    intro ts h
    have h1 : ([] : List ℚ) = ts := Option.some.inj h
    rw [← h1]
    rfl
  | cons e rest ih =>
    intro ts h
    rw [parseTimes] at h
    cases he : e.time with
    | none => rw [he] at h; simp at h
    | some t =>
      rw [he] at h
      cases hr : parseTimes rest with
      | none => rw [hr] at h; simp at h
      | some ts1 =>
        rw [hr] at h
        have h1 : t :: ts1 = ts := Option.some.inj (by simpa using h)
        rw [← h1]
        simp [ih hr]

/-- C3: with at least two events, every timestamp parseable, and a positive
span, the flat mean is the sum over ALL events of `max_requests` (defaulting
to 1 when absent) divided by the span between the global minimum and maximum
timestamp over every event. -/
theorem C3_flat_mean (events : List Event) (ts : List ℚ)
    (hts : parseTimes events = some ts) (hlen : 2 ≤ events.length)
    (hspan : ∃ t1 ∈ ts, ∃ t2 ∈ ts, t1 < t2) :
    ∃ lo hi, lo ∈ ts ∧ hi ∈ ts ∧ (∀ t ∈ ts, lo ≤ t) ∧ (∀ t ∈ ts, t ≤ hi) ∧
      calculate_mean_reqs_per_sec events =
        some (((events.map (fun e => e.max_requests.getD 1)).sum : ℚ) / (hi - lo)) := by
  cases events with
  | nil => simp at hlen
  | cons e es =>
    have hl : ts.length = es.length + 1 := parseTimes_length hts
    cases ts with
    | nil => simp at hl
    | cons t ts1 =>
      cases ts1 with
      | nil =>
        exfalso
        simp only [List.length_cons, List.length_nil] at hl
        simp only [List.length_cons] at hlen
        omega
      | cons u ts2 =>
        have hne : ¬(listMax t (u :: ts2) - listMin t (u :: ts2) = 0) := by
          obtain ⟨t1, h1, t2, h2, hlt⟩ := hspan
          have hlo := listMin_le t (u :: ts2) t1 h1
          have hhi := le_listMax t (u :: ts2) t2 h2
          have hltm : listMin t (u :: ts2) < listMax t (u :: ts2) :=
            lt_of_le_of_lt hlo (lt_of_lt_of_le hlt hhi)
          exact sub_ne_zero.mpr (ne_of_gt hltm)
        refine ⟨listMin t (u :: ts2), listMax t (u :: ts2), listMin_mem t (u :: ts2),
          listMax_mem t (u :: ts2), listMin_le t (u :: ts2), le_listMax t (u :: ts2), ?_⟩
        simp only [calculate_mean_reqs_per_sec, hts]
        rw [if_neg hne]
        congr 1
        push_cast
        rw [List.map_map]
        rfl

/-- C3 witness: two events 10 s apart with `max_requests` 50 each give a flat
mean of 100/10 = 10 requests per second. -/
theorem C3_flat_mean_witness :
    ∃ lo hi, lo ∈ [(0 : ℚ), 10] ∧ hi ∈ [(0 : ℚ), 10] ∧
      (∀ t ∈ [(0 : ℚ), 10], lo ≤ t) ∧ (∀ t ∈ [(0 : ℚ), 10], t ≤ hi) ∧
      calculate_mean_reqs_per_sec [evS0, evE10] =
        some ((([evS0, evE10].map (fun e => e.max_requests.getD 1)).sum : ℚ) /
          (hi - lo)) :=
  C3_flat_mean [evS0, evE10] [0, 10] rfl (by decide)
    ⟨0, by decide, 10, by decide, by norm_num⟩

theorem completedScans_isSome {gs : List (String × ScanGroup)} {g : ScanGroup}
    (h : g ∈ completedScans gs) :
    g.start_time.isSome = true ∧ g.end_time.isSome = true := by
  have h2 : g ∈ (gs.map Prod.snd).filter
      (fun g => g.start_time.isSome && g.end_time.isSome) := h
  have h3 := (List.mem_filter.mp h2).2
  exact Bool.and_eq_true _ _ |>.mp h3

/-- C1: whenever the completed-scan set is non-empty and its timestamp span
is positive, the reported mean requests/second is the sum of each completed
group's single `max_requests` value divided by (maximum − minimum) over all
completed groups' start/end timestamps. -/
theorem C1_completed_mean (events : List Event) (gs : List (String × ScanGroup))
    (hb : buildScanGroups events = some gs)
    (hne : completedScans gs ≠ [])
    (hspan : ∃ t1 ∈ allTimes (completedScans gs),
      ∃ t2 ∈ allTimes (completedScans gs), t1 < t2) :
    ∃ lo hi, lo ∈ allTimes (completedScans gs) ∧ hi ∈ allTimes (completedScans gs) ∧
      (∀ t ∈ allTimes (completedScans gs), lo ≤ t) ∧
      (∀ t ∈ allTimes (completedScans gs), t ≤ hi) ∧
      mainMean events =
        some ((((completedScans gs).map ScanGroup.max_requests).sum : ℚ) / (hi - lo)) := by
  cases hcs : completedScans gs with
  | nil => exact absurd hcs hne
  | cons c cs1 =>
    cases hat : allTimes (c :: cs1) with
    | nil =>
      exfalso
      obtain ⟨t1, h1, _⟩ := hspan
      rw [hcs, hat] at h1
      exact absurd h1 (List.not_mem_nil t1)
    | cons t ts =>
      have hpos : 0 < listMax t ts - listMin t ts := by
        obtain ⟨t1, h1, t2, h2, hlt⟩ := hspan
        rw [hcs, hat] at h1 h2
        have hlo := listMin_le t ts t1 h1
        have hhi := le_listMax t ts t2 h2
        have hx := lt_of_le_of_lt hlo (lt_of_lt_of_le hlt hhi)
        linarith
      clear hne hspan
      refine ⟨listMin t ts, listMax t ts, listMin_mem t ts, listMax_mem t ts,
        listMin_le t ts, le_listMax t ts, ?_⟩
      simp only [mainMean, hb, hcs, completedMean, hat]
      rw [if_pos hpos]

/-- C1 witness: one completed scan, start 0 s, end 10 s, `max_requests` 50,
reported mean 50/10. -/
theorem C1_completed_mean_witness :
    ∃ lo hi,
      lo ∈ allTimes (completedScans
        [(sT ++ "_" ++ sH, ⟨sT, sH, sP, 50, some 0, some 10⟩)]) ∧
      hi ∈ allTimes (completedScans
        [(sT ++ "_" ++ sH, ⟨sT, sH, sP, 50, some 0, some 10⟩)]) ∧
      (∀ t ∈ allTimes (completedScans
        [(sT ++ "_" ++ sH, ⟨sT, sH, sP, 50, some 0, some 10⟩)]), lo ≤ t) ∧
      (∀ t ∈ allTimes (completedScans
        [(sT ++ "_" ++ sH, ⟨sT, sH, sP, 50, some 0, some 10⟩)]), t ≤ hi) ∧
      mainMean [evS0, evE10] =
        some ((((completedScans
          [(sT ++ "_" ++ sH, ⟨sT, sH, sP, 50, some 0, some 10⟩)]).map
            ScanGroup.max_requests).sum : ℚ) / (hi - lo)) :=
  C1_completed_mean [evS0, evE10] _ rfl (by decide)
    ⟨0, by decide, 10, by decide, by norm_num⟩

/-- C7: when the timestamp span is exactly zero, no division happens and the
result is the raw total: the flat method returns the sum of `max_requests`
over all events, the completed-scan method the sum over completed groups. -/
theorem C7_zero_span (events : List Event) (ts : List ℚ)
    (gs : List (String × ScanGroup)) :
    (parseTimes events = some ts → 2 ≤ events.length →
      (∀ t1 ∈ ts, ∀ t2 ∈ ts, t1 = t2) →
      calculate_mean_reqs_per_sec events =
        some (((events.map (fun e => e.max_requests.getD 1)).sum : ℚ))) ∧
    (buildScanGroups events = some gs → completedScans gs ≠ [] →
      (∀ t1 ∈ allTimes (completedScans gs), ∀ t2 ∈ allTimes (completedScans gs),
        t1 = t2) →
      mainMean events =
        some ((((completedScans gs).map ScanGroup.max_requests).sum : ℚ))) := by
  constructor
  · intro hts hlen heq
    cases events with
    | nil => simp at hlen
    | cons e es =>
      have hl : ts.length = es.length + 1 := parseTimes_length hts
      cases ts with
      | nil => simp at hl
      | cons t ts1 =>
        cases ts1 with
        | nil =>
          exfalso
          simp only [List.length_cons, List.length_nil] at hl
          simp only [List.length_cons] at hlen
          omega
        | cons u ts2 =>
          have hz : listMax t (u :: ts2) - listMin t (u :: ts2) = 0 := by
            have h1 := heq _ (listMax_mem t (u :: ts2)) _ (listMin_mem t (u :: ts2))
            rw [h1]
            ring
          simp only [calculate_mean_reqs_per_sec, hts]
          rw [if_pos hz]
          congr 1
          push_cast
          rw [List.map_map]
          rfl
  · intro hb hne heq
    cases hcs : completedScans gs with
    | nil => exact absurd hcs hne
    | cons c cs1 =>
      cases hat : allTimes (c :: cs1) with
      | nil =>
        exfalso
        have hc : c ∈ completedScans gs := by rw [hcs]; exact List.mem_cons_self _ _
        obtain ⟨hs, he⟩ := completedScans_isSome hc
        obtain ⟨t1, ht1⟩ := Option.isSome_iff_exists.mp hs
        have hx : allTimes (c :: cs1) ≠ [] := by simp [allTimes, scanTimes, ht1]
        exact hx hat
      | cons t ts1 =>
        have hz : ¬(0 < listMax t ts1 - listMin t ts1) := by
          have h1 := heq _ (by rw [hcs, hat]; exact listMax_mem t ts1)
            _ (by rw [hcs, hat]; exact listMin_mem t ts1)
          rw [h1]
          simp
        simp only [mainMean, hb, hcs, completedMean, hat]
        rw [if_neg hz]

/-- C7 witness: two events (one `scan_start`, one `scan_end`, same key) both
at t = 0 s: the flat method reports 100 (its raw total), the completed-scan
method reports 50 (one group's budget). -/
theorem C7_zero_span_witness :
    calculate_mean_reqs_per_sec [evS0, evE0] =
        some ((([evS0, evE0].map (fun e => e.max_requests.getD 1)).sum : ℚ)) ∧
      mainMean [evS0, evE0] =
        some ((((completedScans
          [(sT ++ "_" ++ sH, ⟨sT, sH, sP, 50, some 0, some 0⟩)]).map
            ScanGroup.max_requests).sum : ℚ)) :=
  ⟨(C7_zero_span [evS0, evE0] [0, 0] []).1 rfl (by decide) (by decide),
    (C7_zero_span [evS0, evE0] [0, 0]
      [(sT ++ "_" ++ sH, ⟨sT, sH, sP, 50, some 0, some 0⟩)]).2 rfl
        (by decide) (by decide)⟩

/-- C4: in the single left-to-right pass, when one or more `scan_start`
(resp. `scan_end`) events share a key, the group's `start_time` (resp.
`end_time`) is the parsed timestamp of the LAST such event encountered — not
the minimum or maximum of them. -/
theorem C4_last_wins (events : List Event) (gs : List (String × ScanGroup)) (k : String)
    (hb : buildScanGroups events = some gs) :
    (∀ e, (events.filter (isStartB k)).getLast? = some e →
      ∃ t, e.time = some t ∧ startOf k gs = some t) ∧
    (∀ e, (events.filter (isEndB k)).getLast? = some e →
      ∃ t, e.time = some t ∧ endOf k gs = some t) := by
  constructor
  · intro e he
    obtain ⟨ys, hys⟩ := List.getLast?_eq_some_iff.mp he
    have hmemf : e ∈ events.filter (isStartB k) := by
      rw [hys]
      exact List.mem_append.mpr (Or.inr (List.mem_cons_self _ _))
    obtain ⟨hmem, hprop⟩ := List.mem_filter.mp hmemf
    have hprop2 : scanKey e = some k ∧ e.event_type = some scan_start_type := by
      simpa [isStartB] using hprop
    have htsome := buildAux_time_isSome events [] gs hb e hmem (Or.inl hprop2.2)
    obtain ⟨t, ht⟩ := Option.isSome_iff_exists.mp htsome
    refine ⟨t, ht, ?_⟩
    have h1 := buildAux_startOf events [] gs hb k
    rw [lastTimeFrom_eq, he] at h1
    rw [h1]
    exact ht
  · intro e he
    obtain ⟨ys, hys⟩ := List.getLast?_eq_some_iff.mp he
    have hmemf : e ∈ events.filter (isEndB k) := by
      rw [hys]
      exact List.mem_append.mpr (Or.inr (List.mem_cons_self _ _))
    obtain ⟨hmem, hprop⟩ := List.mem_filter.mp hmemf
    have hprop2 : scanKey e = some k ∧ e.event_type = some scan_end_type := by
      simpa [isEndB] using hprop
    have htsome := buildAux_time_isSome events [] gs hb e hmem (Or.inr hprop2.2)
    obtain ⟨t, ht⟩ := Option.isSome_iff_exists.mp htsome
    refine ⟨t, ht, ?_⟩
    have h1 := buildAux_endOf events [] gs hb k
    rw [lastTimeFrom_eq, he] at h1
    rw [h1]
    exact ht

/-- C4 witness: with `scan_start`(0 s), `scan_start`(5 s), `scan_end`(10 s)
on one key, the kept start is 5 s (the last `scan_start`), the end 10 s. -/
theorem C4_last_wins_witness :
    (∃ t, evS5.time = some t ∧
      startOf (sT ++ "_" ++ sH)
        [(sT ++ "_" ++ sH, ⟨sT, sH, sP, 50, some 5, some 10⟩)] = some t) ∧
    (∃ t, evE10.time = some t ∧
      endOf (sT ++ "_" ++ sH)
        [(sT ++ "_" ++ sH, ⟨sT, sH, sP, 50, some 5, some 10⟩)] = some t) :=
  ⟨(C4_last_wins [evS0, evS5, evE10] _ (sT ++ "_" ++ sH) rfl).1 evS5 (by decide),
    (C4_last_wins [evS0, evS5, evE10] _ (sT ++ "_" ++ sH) rfl).2 evE10 (by decide)⟩

/-- C6: a scan group enters the completed-scan statistics if and only if at
least one `scan_start` event and at least one `scan_end` event with its key
were processed. -/
theorem C6_completed_iff (events : List Event) (gs : List (String × ScanGroup))
    (k : String) (g : ScanGroup)
    (hb : buildScanGroups events = some gs) (hg : lookupG k gs = some g) :
    g ∈ completedScans gs ↔
      (∃ e ∈ events, scanKey e = some k ∧ e.event_type = some scan_start_type) ∧
      (∃ e ∈ events, scanKey e = some k ∧ e.event_type = some scan_end_type) := by
  have hs := buildAux_startOf events [] gs hb k
  have he2 := buildAux_endOf events [] gs hb k
  rw [startOf, hg, Option.some_bind] at hs
  rw [endOf, hg, Option.some_bind] at he2
  have hmemmap : g ∈ gs.map Prod.snd :=
    List.mem_map.mpr ⟨(k, g), lookupG_mem hg, rfl⟩
  constructor
  · intro hc
    obtain ⟨hss, hes⟩ := completedScans_isSome hc
    constructor
    · rw [hs, lastTimeFrom_eq] at hss
      cases hl : (events.filter (isStartB k)).getLast? with
      | none =>
        rw [hl] at hss
        simp [startOf, lookupG] at hss
      | some e1 =>
        obtain ⟨ys, hys⟩ := List.getLast?_eq_some_iff.mp hl
        have hmemf : e1 ∈ events.filter (isStartB k) := by
          rw [hys]
          exact List.mem_append.mpr (Or.inr (List.mem_cons_self _ _))
        obtain ⟨hmem, hprop⟩ := List.mem_filter.mp hmemf
        have hprop2 : scanKey e1 = some k ∧ e1.event_type = some scan_start_type := by
          simpa [isStartB] using hprop
        exact ⟨e1, hmem, hprop2⟩
    · rw [he2, lastTimeFrom_eq] at hes
      cases hl : (events.filter (isEndB k)).getLast? with
      | none =>
        rw [hl] at hes
        simp [endOf, lookupG] at hes
      | some e1 =>
        obtain ⟨ys, hys⟩ := List.getLast?_eq_some_iff.mp hl
        have hmemf : e1 ∈ events.filter (isEndB k) := by
          rw [hys]
          exact List.mem_append.mpr (Or.inr (List.mem_cons_self _ _))
        obtain ⟨hmem, hprop⟩ := List.mem_filter.mp hmemf
        have hprop2 : scanKey e1 = some k ∧ e1.event_type = some scan_end_type := by
          simpa [isEndB] using hprop
        exact ⟨e1, hmem, hprop2⟩
  · rintro ⟨⟨e1, hm1, hp1⟩, ⟨e2, hm2, hp2⟩⟩
    have hss : g.start_time.isSome = true := by
      rw [hs, lastTimeFrom_eq]
      have hmemf : e1 ∈ events.filter (isStartB k) :=
        List.mem_filter.mpr ⟨hm1, by simpa [isStartB] using hp1⟩
      have hfne : events.filter (isStartB k) ≠ [] := by
        intro hnil
        rw [hnil] at hmemf
        exact absurd hmemf (List.not_mem_nil e1)
      obtain ⟨e3, hl⟩ := Option.isSome_iff_exists.mp (List.getLast?_isSome.mpr hfne)
      rw [hl]
      obtain ⟨ys, hys⟩ := List.getLast?_eq_some_iff.mp hl
      have hmemf3 : e3 ∈ events.filter (isStartB k) := by
        rw [hys]
        exact List.mem_append.mpr (Or.inr (List.mem_cons_self _ _))
      obtain ⟨hmem3, hprop3⟩ := List.mem_filter.mp hmemf3
      have hprop4 : scanKey e3 = some k ∧ e3.event_type = some scan_start_type := by
        simpa [isStartB] using hprop3
      exact buildAux_time_isSome events [] gs hb e3 hmem3 (Or.inl hprop4.2)
    have hes : g.end_time.isSome = true := by
      rw [he2, lastTimeFrom_eq]
      have hmemf : e2 ∈ events.filter (isEndB k) :=
        List.mem_filter.mpr ⟨hm2, by simpa [isEndB] using hp2⟩
      have hfne : events.filter (isEndB k) ≠ [] := by
        intro hnil
        rw [hnil] at hmemf
        exact absurd hmemf (List.not_mem_nil e2)
      obtain ⟨e3, hl⟩ := Option.isSome_iff_exists.mp (List.getLast?_isSome.mpr hfne)
      rw [hl]
      obtain ⟨ys, hys⟩ := List.getLast?_eq_some_iff.mp hl
      have hmemf3 : e3 ∈ events.filter (isEndB k) := by
        rw [hys]
        exact List.mem_append.mpr (Or.inr (List.mem_cons_self _ _))
      obtain ⟨hmem3, hprop3⟩ := List.mem_filter.mp hmemf3
      have hprop4 : scanKey e3 = some k ∧ e3.event_type = some scan_end_type := by
        simpa [isEndB] using hprop3
      exact buildAux_time_isSome events [] gs hb e3 hmem3 (Or.inr hprop4.2)
    exact List.mem_filter.mpr ⟨hmemmap, by rw [Bool.and_eq_true]; exact ⟨hss, hes⟩⟩

/-- C6 witness: with one `scan_start` and one `scan_end` for the key, the
group is completed, and the iff instantiates. -/
theorem C6_completed_iff_witness :
    (⟨sT, sH, sP, 50, some 0, some 10⟩ : ScanGroup) ∈
        completedScans [(sT ++ "_" ++ sH, ⟨sT, sH, sP, 50, some 0, some 10⟩)] ↔
      (∃ e ∈ [evS0, evE10], scanKey e = some (sT ++ "_" ++ sH) ∧
        e.event_type = some scan_start_type) ∧
      (∃ e ∈ [evS0, evE10], scanKey e = some (sT ++ "_" ++ sH) ∧
        e.event_type = some scan_end_type) :=
  C6_completed_iff [evS0, evE10] _ (sT ++ "_" ++ sH) _ rfl rfl

/-- C10: processing an event whose key already exists leaves the group's four
descriptive fields untouched, and an event of any third `event_type` leaves
the whole map untouched. -/
theorem C10_existing_key_frame (gs gs2 : List (String × ScanGroup)) (e : Event)
    (k : String) (g0 : ScanGroup)
    (hk : scanKey e = some k) (hg : lookupG k gs = some g0)
    (hp : processEvent gs e = some gs2) :
    (∃ g1, lookupG k gs2 = some g1 ∧ g1.template_id = g0.template_id ∧
      g1.target = g0.target ∧ g1.template_path = g0.template_path ∧
      g1.max_requests = g0.max_requests) ∧
    (∀ et, e.event_type = some et → et ≠ scan_start_type → et ≠ scan_end_type →
      gs2 = gs) := by
  obtain ⟨tid, tgt, gs1, et, htid, htgt, hety, hinit, hact⟩ := processEvent_cases hp
  have hkeq : k = tid ++ "_" ++ tgt := by
    have hk2 : scanKey e = some (tid ++ "_" ++ tgt) := by simp [scanKey, htid, htgt]
    exact Option.some.inj (hk.symm.trans hk2)
  subst hkeq
  have hgs1 : gs1 = gs := by
    rcases hinit with ⟨_, h1⟩ | ⟨hnone, _, _, _, _, _⟩
    · exact h1
    · rw [hg] at hnone
      exact absurd hnone (by simp)
  subst hgs1
  constructor
  · rcases hact with ⟨hst, t, htime, rfl⟩ | ⟨hnst, hen, t, htime, rfl⟩ | ⟨hnst, hnen, rfl⟩
    · refine ⟨setStart t g0, ?_, rfl, rfl, rfl, rfl⟩
      rw [lookupG_updateG_self, hg]
      rfl
    · refine ⟨setEnd t g0, ?_, rfl, rfl, rfl, rfl⟩
      rw [lookupG_updateG_self, hg]
      rfl
    · exact ⟨g0, hg, rfl, rfl, rfl, rfl⟩
  · intro et2 hety2 hnst2 hnen2
    have heteq : et2 = et := Option.some.inj (hety2.symm.trans hety)
    rcases hact with ⟨hst, _, _, _⟩ | ⟨_, hen, _, _, _⟩ | ⟨_, _, h3⟩
    · exact absurd (heteq.trans hst) hnst2
    · exact absurd (heteq.trans hen) hnen2
    · exact h3

/-- C10 witness: after `scan_start`(0 s) created the group, an `info` event
with the same key changes nothing at all. -/
theorem C10_existing_key_frame_witness :
    (∃ g1, lookupG (sT ++ "_" ++ sH)
        [(sT ++ "_" ++ sH, ⟨sT, sH, sP, 50, some 0, none⟩)] = some g1 ∧
      g1.template_id = (⟨sT, sH, sP, 50, some 0, none⟩ : ScanGroup).template_id ∧
      g1.target = (⟨sT, sH, sP, 50, some 0, none⟩ : ScanGroup).target ∧
      g1.template_path = (⟨sT, sH, sP, 50, some 0, none⟩ : ScanGroup).template_path ∧
      g1.max_requests = (⟨sT, sH, sP, 50, some 0, none⟩ : ScanGroup).max_requests) ∧
    (∀ et, evOther.event_type = some et → et ≠ scan_start_type →
      et ≠ scan_end_type →
      [(sT ++ "_" ++ sH, (⟨sT, sH, sP, 50, some 0, none⟩ : ScanGroup))] =
        [(sT ++ "_" ++ sH, ⟨sT, sH, sP, 50, some 0, none⟩)]) :=
  C10_existing_key_frame [(sT ++ "_" ++ sH, ⟨sT, sH, sP, 50, some 0, none⟩)] _
    evOther (sT ++ "_" ++ sH) _ rfl rfl rfl

/-! ### Reader lemmas for the exit-status claim -/

theorem parseLines_error_of_malformed : ∀ {lines : List Line},
    Line.malformed ∈ lines → parseLines lines = Except.error 1 := by
  intro lines
  induction lines with
  | nil => intro h; exact absurd h (List.not_mem_nil _)
  | cons l rest ih =>
    intro h
    cases l with
    | blank =>
      rcases List.mem_cons.mp h with h1 | h1
      · exact Line.noConfusion h1
      · exact ih h1
    | malformed => rfl
    | record e =>
      rcases List.mem_cons.mp h with h1 | h1
      · exact Line.noConfusion h1
      · show (parseLines rest).map _ = Except.error 1
        rw [ih h1]
        rfl

theorem parseLines_ok : ∀ {lines : List Line}, Line.malformed ∉ lines →
    ∃ evs, parseLines lines = Except.ok evs ∧ ∀ e ∈ evs, Line.record e ∈ lines := by
  intro lines
  induction lines with
  | nil =>
    intro h
    exact ⟨[], rfl, fun e he => absurd he (List.not_mem_nil e)⟩
  | cons l rest ih =>
    intro h
    have hrest : Line.malformed ∉ rest := fun hr => h (List.mem_cons_of_mem _ hr)
    obtain ⟨evs, hok, hmem⟩ := ih hrest
    cases l with
    | blank =>
      exact ⟨evs, hok, fun e he => List.mem_cons_of_mem _ (hmem e he)⟩
    | malformed => exact absurd (List.mem_cons_self _ _) h
    | record e0 =>
      refine ⟨e0 :: evs, ?_, ?_⟩
      · show (parseLines rest).map _ = _
        rw [hok]
        rfl
      · intro e he
        rcases List.mem_cons.mp he with h1 | h1
        · rw [h1]
          exact List.mem_cons_self _ _
        · exact List.mem_cons_of_mem _ (hmem e h1)

theorem processEvent_wf (gs : List (String × ScanGroup)) (e : Event)
    (hwf : requiredFields e) : ∃ gs2, processEvent gs e = some gs2 := by
  obtain ⟨h1, h2, h3, h4, h5, h6⟩ := hwf
  obtain ⟨t, ht⟩ := Option.isSome_iff_exists.mp h1
  obtain ⟨et, hety⟩ := Option.isSome_iff_exists.mp h2
  obtain ⟨tid, htid⟩ := Option.isSome_iff_exists.mp h3
  obtain ⟨tgt, htgt⟩ := Option.isSome_iff_exists.mp h4
  obtain ⟨tp, htp⟩ := Option.isSome_iff_exists.mp h5
  obtain ⟨mr, hmr⟩ := Option.isSome_iff_exists.mp h6
  cases hlook : lookupG (tid ++ "_" ++ tgt) gs with
  | some g0 =>
    by_cases hst : et = scan_start_type
    · exact ⟨updateG (tid ++ "_" ++ tgt) (setStart t) gs,
        by simp [processEvent, htid, htgt, hety, ht, hlook, hst]⟩
    · by_cases hen : et = scan_end_type
      · refine ⟨updateG (tid ++ "_" ++ tgt) (setEnd t) gs, ?_⟩
        simp [processEvent, htid, htgt, hety, ht, hlook, hst, hen]
        intro hcon
        exact absurd hcon (by decide)
      · exact ⟨gs, by simp [processEvent, htid, htgt, hety, hlook, hst, hen]⟩
  | none =>
    by_cases hst : et = scan_start_type
    · exact ⟨updateG (tid ++ "_" ++ tgt) (setStart t)
          (gs ++ [(tid ++ "_" ++ tgt, newGroup tid tgt tp mr)]),
        by simp [processEvent, htid, htgt, htp, hmr, hety, ht, hlook, hst]⟩
    · by_cases hen : et = scan_end_type
      · refine ⟨updateG (tid ++ "_" ++ tgt) (setEnd t)
            (gs ++ [(tid ++ "_" ++ tgt, newGroup tid tgt tp mr)]), ?_⟩
        simp [processEvent, htid, htgt, htp, hmr, hety, ht, hlook, hst, hen]
        intro hcon
        exact absurd hcon (by decide)
      · exact ⟨gs ++ [(tid ++ "_" ++ tgt, newGroup tid tgt tp mr)],
          by simp [processEvent, htid, htgt, htp, hmr, hety, hlook, hst, hen]⟩

theorem buildAux_wf : ∀ (events : List Event) (gs0 : List (String × ScanGroup)),
    (∀ e ∈ events, requiredFields e) →
    ∃ gs, buildScanGroupsAux gs0 events = some gs := by
  intro events
  induction events with
  | nil => intro gs0 h; exact ⟨gs0, rfl⟩
  | cons e rest ih =>
    intro gs0 h
    obtain ⟨gs1, hp1⟩ := processEvent_wf gs0 e (h e (List.mem_cons_self _ _))
    obtain ⟨gs2, hp2⟩ := ih gs1 (fun e2 he2 => h e2 (List.mem_cons_of_mem _ he2))
    exact ⟨gs2, by simp [buildScanGroupsAux, hp1, hp2]⟩

/-- C9, counterexample: the file `some [record {}]` parses completely (exit
on parse never fires), but the run crashes on the missing `template_id`
(line 83 KeyError) and the interpreter exits with status 1, not 0. -/
theorem C9_counterexample :
    parse_events_file (some [Line.record emptyEvent]) = Except.ok [emptyEvent] ∧
      exitStatus (runMain (some [Line.record emptyEvent])) = 1 :=
  ⟨rfl, rfl⟩

/-- C9 (amended): exit status is 1 when the file is missing or any line fails
to parse as JSON; a fully parsed input whose records all carry the required
fields exits 0 — including the zero-completed-scans case; but a fully parsed
record missing a required field crashes the run (status 1), so "fully
parsed" alone does not guarantee exit 0. -/
theorem C9_exit_codes (lines : List Line) :
    exitStatus (runMain none) = 1 ∧
      (Line.malformed ∈ lines → exitStatus (runMain (some lines)) = 1) ∧
      ((∀ l ∈ lines, lineWF l) → Line.malformed ∉ lines →
        exitStatus (runMain (some lines)) = 0) := by
  refine ⟨rfl, ?_, ?_⟩
  · intro h
    have h1 := parseLines_error_of_malformed h
    simp [runMain, parse_events_file, h1, exitStatus]
  · intro hwf hnm
    obtain ⟨evs, hok, hmem⟩ := parseLines_ok hnm
    obtain ⟨gs, hgs⟩ := buildAux_wf evs [] (fun e he => hwf _ (hmem e he))
    simp [runMain, parse_events_file, hok, buildScanGroups, hgs, exitStatus]

/-- C9 witness: a missing file exits 1, a malformed line exits 1, and a
well-formed two-line file (with zero completed scans is also fine) exits 0. -/
theorem C9_exit_codes_witness :
    exitStatus (runMain none) = 1 ∧
      exitStatus (runMain (some [Line.blank, Line.malformed])) = 1 ∧
      exitStatus (runMain (some [Line.blank, Line.record evS0])) = 0 :=
  ⟨(C9_exit_codes []).1,
    (C9_exit_codes [Line.blank, Line.malformed]).2.1 (by decide),
    (C9_exit_codes [Line.blank, Line.record evS0]).2.2 (by decide) (by decide)⟩

end NucleiStats
